import Mathlib

/-!
Verification of the `u_rb` ring buffer (srcs/toolbox/rb.c).

The buffer owns a `2*sz`-byte virtual address range in which the two halves
alias the same `sz`-byte physical storage (double mmap).  We embed the
physical storage as a function `mem : Nat → Nat` indexed by physical byte
position: the byte at virtual offset `v` (for `v < 2*sz`) is `mem (v % sz)`.
All offset arithmetic in the C code is on `size_t`, embedded as `Nat`
arithmetic taken modulo `2^64` wherever the C value could wrap.
-/

/-- Modulus of `size_t` arithmetic: `2^64`, written as a numeral. -/
def SZMOD : Nat := 18446744073709551616

/-- Addition of two `size_t` values. -/
def szadd (a b : Nat) : Nat := (a + b) % SZMOD

/-- Subtraction of two `size_t` values (two's-complement wraparound),
for `a b < SZMOD`. -/
def szsub (a b : Nat) : Nat := (a + (SZMOD - b)) % SZMOD

/-- The control structure `struct u_rb_s`.  The `base` pointer is embedded
implicitly: addresses are kept as offsets from `base`, and the doubly-mapped
region is represented by the physical store `mem` (virtual offset `v`
aliases `mem (v % sz)`). -/
structure u_rb_s where
  sz : Nat
  wr_off : Nat
  rd_off : Nat
  mem : Nat → Nat

/-- Effect on the physical store of `memcpy(base + off, bytes, len)`:
byte `i` of `bytes` lands at physical position `(off + i) % sz`,
written in ascending order as `memcpy` does. -/
def memcpyIn (sz : Nat) (off : Nat) (bytes : List Nat) (mem : Nat → Nat) : Nat → Nat :=
  match bytes with
  | [] => mem
  | c :: rest => memcpyIn sz (off + 1) rest (fun i => if i = off % sz then c else mem i)

/-- Bytes observed by `memcpy(b, base + off, k)`: byte `j` comes from
physical position `(off + j) % sz`. -/
def memRead (sz : Nat) (mem : Nat → Nat) (off k : Nat) : List Nat :=
  (List.range k).map fun j => mem ((off + j) % sz)

/-- `round_sz`: round the requested size to a multiple of the page size
(`pg_sz` stands for `sysconf(_SC_PAGE_SIZE)`); the multiplication is
`size_t` arithmetic, hence the final reduction modulo `SZMOD`. -/
def round_sz (pg_sz sz : Nat) : Nat :=
  (if sz = 0 then pg_sz else ((sz - 1) / pg_sz + 1) * pg_sz) % SZMOD

/-- `u_rb_size`. -/
def u_rb_size (rb : u_rb_s) : Nat := rb.sz

/-- `u_rb_ready`: `rb->wr_off - rb->rd_off` in `size_t` arithmetic. -/
def u_rb_ready (rb : u_rb_s) : Nat := szsub rb.wr_off rb.rd_off

/-- `u_rb_avail`: `rb->sz - u_rb_ready(rb)` in `size_t` arithmetic. -/
def u_rb_avail (rb : u_rb_s) : Nat := szsub rb.sz (u_rb_ready rb)

/-- `write_addr`: offset from `base` of the next write, `rb->wr_off`. -/
def write_addr (rb : u_rb_s) : Nat := rb.wr_off

/-- `read_addr`: offset from `base` of the next read, `rb->rd_off`. -/
def read_addr (rb : u_rb_s) : Nat := rb.rd_off

/-- `write_incr`: `rb->wr_off += cnt`. -/
def write_incr (rb : u_rb_s) (cnt : Nat) : u_rb_s :=
  { rb with wr_off := szadd rb.wr_off cnt }

/-- `read_incr`: `rb->rd_off += cnt`, then if the new read offset has
entered the second virtual-memory region (`rd_off >= sz`), both offsets
are decremented by `sz`. -/
def read_incr (rb : u_rb_s) (cnt : Nat) : u_rb_s :=
  if rb.sz ≤ szadd rb.rd_off cnt then
    { rb with rd_off := szsub (szadd rb.rd_off cnt) rb.sz
              wr_off := szsub rb.wr_off rb.sz }
  else
    { rb with rd_off := szadd rb.rd_off cnt }

/-- Body of `u_rb_write` after the NULL-pointer guards: reject
`b_sz > u_rb_size(rb)`, compute `to_be_written = U_MIN(u_rb_avail(rb), b_sz)`,
return 0 at once if it is zero, otherwise `memcpy` into `write_addr` and
advance the write offset.  Returns the new state and the `ssize_t` result. -/
def u_rb_write (rb : u_rb_s) (b : List Nat) (b_sz : Nat) : u_rb_s × Int :=
  if b_sz > u_rb_size rb then (rb, -1)
  else if min (u_rb_avail rb) b_sz = 0 then (rb, 0)
  else
    (write_incr
      { rb with mem := memcpyIn rb.sz (write_addr rb) (b.take (min (u_rb_avail rb) b_sz)) rb.mem }
      (min (u_rb_avail rb) b_sz),
     Int.ofNat (min (u_rb_avail rb) b_sz))

/-- Body of `u_rb_read` after the NULL-pointer guards: reject
`b_sz > u_rb_size(rb)`, compute `to_be_read = U_MIN(u_rb_ready(rb), b_sz)`,
return 0 at once if it is zero, otherwise copy from `read_addr` into the
caller's block and advance the read offset.  Returns the new state, the
`ssize_t` result, and the bytes deposited in the caller's block. -/
def u_rb_read (rb : u_rb_s) (b_sz : Nat) : u_rb_s × Int × List Nat :=
  if b_sz > u_rb_size rb then (rb, -1, [])
  else if min (u_rb_ready rb) b_sz = 0 then (rb, 0, [])
  else
    (read_incr rb (min (u_rb_ready rb) b_sz),
     Int.ofNat (min (u_rb_ready rb) b_sz),
     memRead rb.sz rb.mem (read_addr rb) (min (u_rb_ready rb) b_sz))

/-- `u_rb_write` with its `dbg_return_if` NULL guards: first `rb == NULL`,
then `b == NULL`, each returning -1 without touching the buffer. -/
def u_rb_write_ptr (orb : Option u_rb_s) (ob : Option (List Nat)) (b_sz : Nat) :
    Option u_rb_s × Int :=
  match orb with
  | none => (none, -1)
  | some rb =>
    match ob with
    | none => (some rb, -1)
    | some b => (some (u_rb_write rb b b_sz).1, (u_rb_write rb b b_sz).2)

/-- `u_rb_read` with its `dbg_return_if` NULL guards: first `b == NULL`,
then `rb == NULL`, each returning -1 without touching the buffer.  The
caller's block is represented by `Option Unit` (present or NULL). -/
def u_rb_read_ptr (orb : Option u_rb_s) (ob : Option Unit) (b_sz : Nat) :
    Option u_rb_s × Int × List Nat :=
  match ob with
  | none => (orb, -1, [])
  | some _ =>
    match orb with
    | none => (none, -1, [])
    | some rb =>
      (some (u_rb_read rb b_sz).1, (u_rb_read rb b_sz).2.1, (u_rb_read rb b_sz).2.2)

/-- `u_rb_clear`: reset both offsets to 0 (the C routine also returns 0 on a
non-NULL argument; only the state update is relevant here). -/
def u_rb_clear (rb : u_rb_s) : u_rb_s :=
  { rb with wr_off := 0, rd_off := 0 }

/-- State produced by a successful `u_rb_create`: size rounded by
`round_sz`, both offsets zero, and the backing store zero-filled (the
backing file is freshly created and extended with `ftruncate`, which
zero-fills). -/
def u_rb_create (pg_sz hint_sz : Nat) : u_rb_s :=
  { sz := round_sz pg_sz hint_sz, wr_off := 0, rd_off := 0, mem := fun _ => 0 }

/-- State invariant of a live buffer: the read offset stays in the first
mapped half, offsets are ordered, at most `sz` bytes are buffered, and the
doubled region size fits `size_t` (a successful `mmap` of `sz << 1` bytes
requires it). -/
def RbInv (rb : u_rb_s) : Prop :=
  rb.rd_off < rb.sz ∧ rb.rd_off ≤ rb.wr_off ∧ rb.wr_off ≤ rb.rd_off + rb.sz ∧
    2 * rb.sz < SZMOD

instance (rb : u_rb_s) : Decidable (RbInv rb) := by
  unfold RbInv; infer_instance

/-- States reachable from a successful `u_rb_create` by any sequence of
`u_rb_write`, `u_rb_read` and `u_rb_clear` calls.  The side conditions on
`create` record that the creation succeeded: the rounded size is positive
(an `mmap` of length 0 fails) and the doubled length `sz << 1` does not
wrap `size_t`. -/
inductive Reach : u_rb_s → Prop where
  | create : ∀ pg hint, 0 < round_sz pg hint → 2 * round_sz pg hint < SZMOD →
      Reach (u_rb_create pg hint)
  | wr : ∀ rb b n, Reach rb → Reach (u_rb_write rb b n).1
  | rd : ∀ rb n, Reach rb → Reach (u_rb_read rb n).1
  | clr : ∀ rb, Reach rb → Reach (u_rb_clear rb)

/-- One step of a write/read trace, recording the requested size. -/
inductive RbOp where
  | wrOp (b : List Nat) (n : Nat)
  | rdOp (n : Nat)

/-- Requested transfer size of a trace step. -/
def opSz : RbOp → Nat
  | RbOp.wrOp _ n => n
  | RbOp.rdOp n => n

/-- Run a trace of write/read calls, accumulating the state, the total of
the (nonnegative) write results and the total of the read results. -/
def runOps (rb : u_rb_s) : List RbOp → u_rb_s × Nat × Nat
  | [] => (rb, 0, 0)
  | RbOp.wrOp b n :: rest =>
      ((runOps (u_rb_write rb b n).1 rest).1,
       (u_rb_write rb b n).2.toNat + (runOps (u_rb_write rb b n).1 rest).2.1,
       (runOps (u_rb_write rb b n).1 rest).2.2)
  | RbOp.rdOp n :: rest =>
      ((runOps (u_rb_read rb n).1 rest).1,
       (runOps (u_rb_read rb n).1 rest).2.1,
       (u_rb_read rb n).2.1.toNat + (runOps (u_rb_read rb n).1 rest).2.2)

theorem szadd_eq (a b : Nat) (h : a + b < SZMOD) : szadd a b = a + b :=
  Nat.mod_eq_of_lt h

theorem szsub_eq (a b : Nat) (h1 : b ≤ a) (h2 : a < SZMOD) : szsub a b = a - b := by
  have hm : SZMOD = 18446744073709551616 := rfl
  unfold szsub
  rw [hm] at h2 ⊢
  omega

theorem ready_eq (rb : u_rb_s) (h : RbInv rb) : u_rb_ready rb = rb.wr_off - rb.rd_off := by
  obtain ⟨h1, h2, h3, h4⟩ := h
  have hm : SZMOD = 18446744073709551616 := rfl
  exact szsub_eq _ _ h2 (by omega)

theorem avail_eq (rb : u_rb_s) (h : RbInv rb) :
    u_rb_avail rb = rb.sz - (rb.wr_off - rb.rd_off) := by
  have hr := ready_eq rb h
  obtain ⟨h1, h2, h3, h4⟩ := h
  have hm : SZMOD = 18446744073709551616 := rfl
  unfold u_rb_avail
  rw [hr]
  exact szsub_eq _ _ (by omega) (by omega)

theorem u_rb_write_sz (rb : u_rb_s) (b : List Nat) (n : Nat) :
    (u_rb_write rb b n).1.sz = rb.sz := by
  unfold u_rb_write write_incr
  split_ifs <;> rfl

theorem u_rb_write_rd (rb : u_rb_s) (b : List Nat) (n : Nat) :
    (u_rb_write rb b n).1.rd_off = rb.rd_off := by
  unfold u_rb_write write_incr
  split_ifs <;> rfl

theorem u_rb_read_sz (rb : u_rb_s) (n : Nat) : (u_rb_read rb n).1.sz = rb.sz := by
  unfold u_rb_read read_incr
  split_ifs <;> rfl

theorem u_rb_read_mem (rb : u_rb_s) (n : Nat) : (u_rb_read rb n).1.mem = rb.mem := by
  unfold u_rb_read read_incr
  split_ifs <;> rfl

theorem u_rb_write_char (rb : u_rb_s) (b : List Nat) (n : Nat) (h : RbInv rb)
    (hn : n ≤ rb.sz) :
    (u_rb_write rb b n).1.wr_off = rb.wr_off + min (u_rb_avail rb) n ∧
    (u_rb_write rb b n).2 = Int.ofNat (min (u_rb_avail rb) n) := by
  have hav := avail_eq rb h
  obtain ⟨h1, h2, h3, h4⟩ := h
  have hm : SZMOD = 18446744073709551616 := rfl
  have hgt : ¬ (n > u_rb_size rb) := by
    unfold u_rb_size
    omega
  unfold u_rb_write
  rw [if_neg hgt]
  by_cases hk : min (u_rb_avail rb) n = 0
  · rw [if_pos hk]
    refine ⟨by rw [hk]; rfl, by rw [hk]; rfl⟩
  · rw [if_neg hk]
    refine ⟨?_, rfl⟩
    show szadd rb.wr_off (min (u_rb_avail rb) n) = _
    apply szadd_eq
    have hle : min (u_rb_avail rb) n ≤ u_rb_avail rb := Nat.min_le_left _ _
    omega

theorem u_rb_read_char (rb : u_rb_s) (n : Nat) (h : RbInv rb) (hn : n ≤ rb.sz) :
    (u_rb_read rb n).2.1 = Int.ofNat (min (u_rb_ready rb) n) ∧
    (rb.sz ≤ rb.rd_off + min (u_rb_ready rb) n →
      (u_rb_read rb n).1.rd_off = rb.rd_off + min (u_rb_ready rb) n - rb.sz ∧
      (u_rb_read rb n).1.wr_off = rb.wr_off - rb.sz) ∧
    (rb.rd_off + min (u_rb_ready rb) n < rb.sz →
      (u_rb_read rb n).1.rd_off = rb.rd_off + min (u_rb_ready rb) n ∧
      (u_rb_read rb n).1.wr_off = rb.wr_off) := by
  have hready := ready_eq rb h
  obtain ⟨h1, h2, h3, h4⟩ := h
  have hm : SZMOD = 18446744073709551616 := rfl
  have hgt : ¬ (n > u_rb_size rb) := by
    unfold u_rb_size
    omega
  have hkle : min (u_rb_ready rb) n ≤ u_rb_ready rb := Nat.min_le_left _ _
  unfold u_rb_read
  rw [if_neg hgt]
  by_cases hk : min (u_rb_ready rb) n = 0
  · rw [if_pos hk]
    refine ⟨by rw [hk]; rfl, ?_, ?_⟩
    · intro habs
      rw [hk] at habs
      omega
    · intro _
      rw [hk]
      exact ⟨rfl, rfl⟩
  · rw [if_neg hk]
    refine ⟨rfl, ?_, ?_⟩
    · intro hge
      show (read_incr rb (min (u_rb_ready rb) n)).rd_off = _ ∧
        (read_incr rb (min (u_rb_ready rb) n)).wr_off = _
      unfold read_incr
      have hadd : szadd rb.rd_off (min (u_rb_ready rb) n) =
          rb.rd_off + min (u_rb_ready rb) n := szadd_eq _ _ (by omega)
      rw [hadd, if_pos hge]
      constructor
      · exact szsub_eq _ _ hge (by omega)
      · exact szsub_eq _ _ (by omega) (by omega)
    · intro hlt
      show (read_incr rb (min (u_rb_ready rb) n)).rd_off = _ ∧
        (read_incr rb (min (u_rb_ready rb) n)).wr_off = _
      unfold read_incr
      have hadd : szadd rb.rd_off (min (u_rb_ready rb) n) =
          rb.rd_off + min (u_rb_ready rb) n := szadd_eq _ _ (by omega)
      rw [hadd, if_neg (by omega)]
      exact ⟨rfl, rfl⟩

theorem rbInv_write (rb : u_rb_s) (b : List Nat) (n : Nat) (h : RbInv rb) :
    RbInv (u_rb_write rb b n).1 := by
  by_cases hn : n ≤ rb.sz
  · have hc := u_rb_write_char rb b n h hn
    have hav := avail_eq rb h
    have hkle : min (u_rb_avail rb) n ≤ u_rb_avail rb := Nat.min_le_left _ _
    obtain ⟨h1, h2, h3, h4⟩ := h
    unfold RbInv
    rw [u_rb_write_sz, u_rb_write_rd, hc.1]
    omega
  · have heq : u_rb_write rb b n = (rb, -1) := by
      unfold u_rb_write
      rw [if_pos (by unfold u_rb_size; omega)]
    rw [heq]
    exact h

theorem rbInv_read (rb : u_rb_s) (n : Nat) (h : RbInv rb) :
    RbInv (u_rb_read rb n).1 := by
  by_cases hn : n ≤ rb.sz
  · have hc := u_rb_read_char rb n h hn
    have hready := ready_eq rb h
    have hkle : min (u_rb_ready rb) n ≤ u_rb_ready rb := Nat.min_le_left _ _
    obtain ⟨h1, h2, h3, h4⟩ := h
    unfold RbInv
    rw [u_rb_read_sz]
    by_cases hb : rb.sz ≤ rb.rd_off + min (u_rb_ready rb) n
    · obtain ⟨hrd, hwr⟩ := hc.2.1 hb
      rw [hrd, hwr]
      omega
    · obtain ⟨hrd, hwr⟩ := hc.2.2 (by omega)
      rw [hrd, hwr]
      omega
  · have heq : u_rb_read rb n = (rb, -1, []) := by
      unfold u_rb_read
      rw [if_pos (by unfold u_rb_size; omega)]
    rw [heq]
    exact h

theorem rbInv_clear (rb : u_rb_s) (h : RbInv rb) : RbInv (u_rb_clear rb) := by
  obtain ⟨h1, h2, h3, h4⟩ := h
  unfold RbInv u_rb_clear
  dsimp only
  refine ⟨by omega, by omega, by omega, h4⟩

theorem rbInv_create (pg hint : Nat) (hpos : 0 < round_sz pg hint)
    (hfit : 2 * round_sz pg hint < SZMOD) : RbInv (u_rb_create pg hint) := by
  unfold RbInv u_rb_create
  dsimp only
  exact ⟨hpos, Nat.le_refl 0, by omega, hfit⟩

theorem reach_inv (rb : u_rb_s) (h : Reach rb) : RbInv rb := by
  induction h with
  | create pg hint hpos hfit => exact rbInv_create pg hint hpos hfit
  | wr rb b n _ ih => exact rbInv_write rb b n ih
  | rd rb n _ ih => exact rbInv_read rb n ih
  | clr rb _ ih => exact rbInv_clear rb ih

theorem u_rb_write_ready (rb : u_rb_s) (b : List Nat) (n : Nat) (h : RbInv rb)
    (hn : n ≤ rb.sz) :
    u_rb_ready (u_rb_write rb b n).1 = u_rb_ready rb + min (u_rb_avail rb) n := by
  have hc := u_rb_write_char rb b n h hn
  have hr2 := ready_eq _ (rbInv_write rb b n h)
  have hr := ready_eq rb h
  have hav := avail_eq rb h
  obtain ⟨h1, h2, h3, h4⟩ := h
  have hkle : min (u_rb_avail rb) n ≤ u_rb_avail rb := Nat.min_le_left _ _
  rw [hr2, u_rb_write_rd, hc.1, hr]
  omega

theorem u_rb_read_ready (rb : u_rb_s) (n : Nat) (h : RbInv rb) (hn : n ≤ rb.sz) :
    u_rb_ready (u_rb_read rb n).1 = u_rb_ready rb - min (u_rb_ready rb) n := by
  have hc := u_rb_read_char rb n h hn
  have hr2 := ready_eq _ (rbInv_read rb n h)
  have hr := ready_eq rb h
  obtain ⟨h1, h2, h3, h4⟩ := h
  have hkle : min (u_rb_ready rb) n ≤ u_rb_ready rb := Nat.min_le_left _ _
  rw [hr] at hkle
  by_cases hb : rb.sz ≤ rb.rd_off + min (u_rb_ready rb) n
  · obtain ⟨hrd, hwr⟩ := hc.2.1 hb
    rw [hr2, hrd, hwr, hr]
    omega
  · obtain ⟨hrd, hwr⟩ := hc.2.2 (by omega)
    rw [hr2, hrd, hwr, hr]
    omega

theorem memcpyIn_frame (sz : Nat) (bytes : List Nat) :
    ∀ off mem p, (∀ i, i < bytes.length → (off + i) % sz ≠ p) →
      memcpyIn sz off bytes mem p = mem p := by
  induction bytes with
  | nil => intro off mem p _; rfl
  | cons c rest ih =>
    intro off mem p hp
    show memcpyIn sz (off + 1) rest (fun i => if i = off % sz then c else mem i) p = mem p
    rw [ih (off + 1) _ p ?_]
    · have h0 : (off + 0) % sz ≠ p := hp 0 (Nat.succ_pos rest.length)
      rw [Nat.add_zero] at h0
      show (if p = off % sz then c else mem p) = mem p
      exact if_neg (fun he => h0 he.symm)
    · intro i hi
      have hnext := hp (i + 1) (Nat.succ_lt_succ hi)
      have he : off + 1 + i = off + (i + 1) := by omega
      rw [he]
      exact hnext

theorem memcpyIn_get (sz : Nat) (hsz : 0 < sz) (bytes : List Nat) :
    ∀ off mem j (hj : j < bytes.length), bytes.length ≤ sz →
      memcpyIn sz off bytes mem ((off + j) % sz) = bytes.get ⟨j, hj⟩ := by
  induction bytes with
  | nil => intro off mem j hj _; exact absurd hj (Nat.not_lt_zero j)
  | cons c rest ih =>
    intro off mem j hj hlen
    have hlen' : rest.length + 1 ≤ sz := hlen
    cases j with
    | zero =>
      show memcpyIn sz (off + 1) rest (fun i => if i = off % sz then c else mem i)
        ((off + 0) % sz) = c
      rw [memcpyIn_frame sz rest (off + 1) _ _ ?_]
      · show (if (off + 0) % sz = off % sz then c else mem ((off + 0) % sz)) = c
        rw [if_pos (by rw [Nat.add_zero])]
      · intro i hi heq
        have he : off + 1 + i = off + (1 + i) := by omega
        rw [he, Nat.add_zero] at heq
        have hdvd := (Nat.modEq_iff_dvd' (Nat.le_add_right off (1 + i))).mp heq.symm
        rw [Nat.add_sub_cancel_left] at hdvd
        have hge := Nat.le_of_dvd (by omega) hdvd
        omega
    | succ j' =>
      have hj' : j' < rest.length := Nat.lt_of_succ_lt_succ hj
      show memcpyIn sz (off + 1) rest (fun i => if i = off % sz then c else mem i)
        ((off + (j' + 1)) % sz) = rest.get ⟨j', hj'⟩
      have he : off + (j' + 1) = (off + 1) + j' := by omega
      rw [he]
      exact ih (off + 1) _ j' hj' (by omega)

theorem memRead_length (sz : Nat) (mem : Nat → Nat) (off k : Nat) :
    (memRead sz mem off k).length = k := by
  simp [memRead]

theorem memRead_memcpyIn (sz : Nat) (hsz : 0 < sz) (off : Nat) (bytes : List Nat)
    (mem : Nat → Nat) (hlen : bytes.length ≤ sz) :
    memRead sz (memcpyIn sz off bytes mem) off bytes.length = bytes := by
  apply List.ext_getElem
  · simp [memRead]
  · intro j h1j h2j
    simp only [memRead, List.getElem_map, List.getElem_range]
    rw [memcpyIn_get sz hsz bytes off mem j h2j hlen]
    simp [List.get_eq_getElem]

theorem u_rb_write_err (rb : u_rb_s) (b : List Nat) (n : Nat) (h : u_rb_size rb < n) :
    u_rb_write rb b n = (rb, -1) := by
  unfold u_rb_write
  rw [if_pos h]

theorem u_rb_read_err (rb : u_rb_s) (n : Nat) (h : u_rb_size rb < n) :
    u_rb_read rb n = (rb, -1, []) := by
  unfold u_rb_read
  rw [if_pos h]

theorem u_rb_write_nonneg (rb : u_rb_s) (b : List Nat) (n : Nat)
    (h : ¬ u_rb_size rb < n) : 0 ≤ (u_rb_write rb b n).2 := by
  unfold u_rb_write
  rw [if_neg h]
  by_cases hk : min (u_rb_avail rb) n = 0
  · rw [if_pos hk]
  · rw [if_neg hk]
    exact Int.natCast_nonneg _

theorem u_rb_read_nonneg (rb : u_rb_s) (n : Nat)
    (h : ¬ u_rb_size rb < n) : 0 ≤ (u_rb_read rb n).2.1 := by
  unfold u_rb_read
  rw [if_neg h]
  by_cases hk : min (u_rb_ready rb) n = 0
  · rw [if_pos hk]
  · rw [if_neg hk]
    exact Int.natCast_nonneg _

theorem u_rb_write_mem (rb : u_rb_s) (b : List Nat) (n : Nat)
    (hn : ¬ n > u_rb_size rb) (hk : ¬ min (u_rb_avail rb) n = 0) :
    (u_rb_write rb b n).1.mem =
      memcpyIn rb.sz rb.wr_off (b.take (min (u_rb_avail rb) n)) rb.mem := by
  unfold u_rb_write write_incr write_addr
  rw [if_neg hn, if_neg hk]

theorem u_rb_read_bytes (rb : u_rb_s) (n : Nat)
    (hn : ¬ n > u_rb_size rb) (hk : ¬ min (u_rb_ready rb) n = 0) :
    (u_rb_read rb n).2.2 = memRead rb.sz rb.mem rb.rd_off (min (u_rb_ready rb) n) := by
  unfold u_rb_read read_addr
  rw [if_neg hn, if_neg hk]

theorem u_rb_read_empty (rb : u_rb_s) (n : Nat) (hz : u_rb_ready rb = 0)
    (hn : n ≤ u_rb_size rb) : u_rb_read rb n = (rb, 0, []) := by
  unfold u_rb_read
  rw [if_neg (Nat.not_lt.mpr hn), if_pos (by rw [hz]; exact Nat.zero_min n)]

theorem szsub_zero_zero : szsub 0 0 = 0 := by
  unfold szsub
  rw [Nat.zero_add, Nat.sub_zero, Nat.mod_self]

theorem u_rb_ready_create (pg hint : Nat) : u_rb_ready (u_rb_create pg hint) = 0 :=
  szsub_zero_zero

theorem u_rb_ready_clear (rb : u_rb_s) : u_rb_ready (u_rb_clear rb) = 0 :=
  szsub_zero_zero

theorem runOps_account (ops : List RbOp) : ∀ rb : u_rb_s, RbInv rb →
    (∀ op ∈ ops, opSz op ≤ rb.sz) →
    u_rb_ready (runOps rb ops).1 + (runOps rb ops).2.2 =
      u_rb_ready rb + (runOps rb ops).2.1 := by
  induction ops with
  | nil => intro rb _ _; rfl
  | cons op rest ih =>
    intro rb h hsz
    cases op with
    | wrOp b n =>
      have hn : n ≤ rb.sz := hsz _ (List.mem_cons_self _ _)
      have hrest : ∀ op ∈ rest, opSz op ≤ (u_rb_write rb b n).1.sz := by
        rw [u_rb_write_sz]
        intro op hop
        exact hsz op (List.mem_cons_of_mem _ hop)
      have ihh := ih (u_rb_write rb b n).1 (rbInv_write rb b n h) hrest
      have hready := u_rb_write_ready rb b n h hn
      have htn : (u_rb_write rb b n).2.toNat = min (u_rb_avail rb) n := by
        rw [(u_rb_write_char rb b n h hn).2]
        rfl
      simp only [runOps]
      omega
    | rdOp n =>
      have hn : n ≤ rb.sz := hsz _ (List.mem_cons_self _ _)
      have hrest : ∀ op ∈ rest, opSz op ≤ (u_rb_read rb n).1.sz := by
        rw [u_rb_read_sz]
        intro op hop
        exact hsz op (List.mem_cons_of_mem _ hop)
      have ihh := ih (u_rb_read rb n).1 (rbInv_read rb n h) hrest
      have hready := u_rb_read_ready rb n h hn
      have hkle : min (u_rb_ready rb) n ≤ u_rb_ready rb := Nat.min_le_left _ _
      have htn : (u_rb_read rb n).2.1.toNat = min (u_rb_ready rb) n := by
        rw [(u_rb_read_char rb n h hn).1]
        rfl
      simp only [runOps]
      omega

/-- C2: in every state reachable from Create by Write, Read and Clear, the
offsets satisfy `0 <= rd_off <= wr_off`, `wr_off - rd_off <= sz` and
`wr_off < 2*sz`, and each of the three operations preserves these bounds. -/
theorem C2_offset_invariant (rb : u_rb_s) (h : Reach rb) :
    (rb.rd_off ≤ rb.wr_off ∧ rb.wr_off - rb.rd_off ≤ rb.sz ∧
      rb.wr_off < 2 * rb.sz) ∧
    (∀ (b : List Nat) (n : Nat),
      (u_rb_write rb b n).1.rd_off ≤ (u_rb_write rb b n).1.wr_off ∧
      (u_rb_write rb b n).1.wr_off - (u_rb_write rb b n).1.rd_off ≤
        (u_rb_write rb b n).1.sz ∧
      (u_rb_write rb b n).1.wr_off < 2 * (u_rb_write rb b n).1.sz) ∧
    (∀ n : Nat,
      (u_rb_read rb n).1.rd_off ≤ (u_rb_read rb n).1.wr_off ∧
      (u_rb_read rb n).1.wr_off - (u_rb_read rb n).1.rd_off ≤ (u_rb_read rb n).1.sz ∧
      (u_rb_read rb n).1.wr_off < 2 * (u_rb_read rb n).1.sz) ∧
    ((u_rb_clear rb).rd_off ≤ (u_rb_clear rb).wr_off ∧
      (u_rb_clear rb).wr_off - (u_rb_clear rb).rd_off ≤ (u_rb_clear rb).sz ∧
      (u_rb_clear rb).wr_off < 2 * (u_rb_clear rb).sz) := by
  have key : ∀ s : u_rb_s, RbInv s →
      s.rd_off ≤ s.wr_off ∧ s.wr_off - s.rd_off ≤ s.sz ∧ s.wr_off < 2 * s.sz := by
    intro s hs
    obtain ⟨g1, g2, g3, g4⟩ := hs
    exact ⟨g2, by omega, by omega⟩
  have hI := reach_inv rb h
  exact ⟨key rb hI, fun b n => key _ (rbInv_write rb b n hI),
    fun n => key _ (rbInv_read rb n hI), key _ (rbInv_clear rb hI)⟩

/-- Witness for C2 at the buffer freshly created with page size 4096 and
hint 0. -/
theorem C2_offset_invariant_witness :
    (u_rb_create 4096 0).rd_off ≤ (u_rb_create 4096 0).wr_off ∧
    (u_rb_create 4096 0).wr_off - (u_rb_create 4096 0).rd_off ≤ (u_rb_create 4096 0).sz ∧
    (u_rb_create 4096 0).wr_off < 2 * (u_rb_create 4096 0).sz :=
  (C2_offset_invariant (u_rb_create 4096 0)
    (Reach.create 4096 0 (by decide) (by decide))).1

/-- C9: in every reachable state the read address `base + rd_off` lies in
the first mapped half (`rd_off < sz`) and the write address `base + wr_off`
lies within the doubled region (`wr_off < 2*sz`). -/
theorem C9_addr_bounds (rb : u_rb_s) (h : Reach rb) :
    read_addr rb < rb.sz ∧ write_addr rb < 2 * rb.sz := by
  have hI := reach_inv rb h
  obtain ⟨g1, g2, g3, g4⟩ := hI
  unfold read_addr write_addr
  exact ⟨g1, by omega⟩

/-- Witness for C9 at the buffer freshly created with page size 4096 and
hint 0. -/
theorem C9_addr_bounds_witness :
    read_addr (u_rb_create 4096 0) < (u_rb_create 4096 0).sz ∧
    write_addr (u_rb_create 4096 0) < 2 * (u_rb_create 4096 0).sz :=
  C9_addr_bounds (u_rb_create 4096 0) (Reach.create 4096 0 (by decide) (by decide))

/-- C3: a successful Read transferring `k = min(Ready(rb), n) > 0` bytes
advances the read offset by `k`; exactly when the new `rd_off` reaches
`sz`, `sz` is subtracted from both offsets; the ready count becomes
`Ready(rb) - k` (the normalization step itself preserves
`wr_off - rd_off`), and both offsets stay below `2*sz`. -/
theorem C3_read_normalization (rb : u_rb_s) (n : Nat) (h : RbInv rb)
    (hn : n ≤ u_rb_size rb) (hpos : 0 < min (u_rb_ready rb) n) :
    (rb.sz ≤ rb.rd_off + min (u_rb_ready rb) n →
      (u_rb_read rb n).1.rd_off = rb.rd_off + min (u_rb_ready rb) n - rb.sz ∧
      (u_rb_read rb n).1.wr_off = rb.wr_off - rb.sz) ∧
    (rb.rd_off + min (u_rb_ready rb) n < rb.sz →
      (u_rb_read rb n).1.rd_off = rb.rd_off + min (u_rb_ready rb) n ∧
      (u_rb_read rb n).1.wr_off = rb.wr_off) ∧
    (u_rb_read rb n).2.1 = Int.ofNat (min (u_rb_ready rb) n) ∧
    u_rb_ready (u_rb_read rb n).1 = u_rb_ready rb - min (u_rb_ready rb) n ∧
    (u_rb_read rb n).1.rd_off < 2 * rb.sz ∧
    (u_rb_read rb n).1.wr_off < 2 * rb.sz := by
  have hc := u_rb_read_char rb n h hn
  have hrr := u_rb_read_ready rb n h hn
  have hI' := rbInv_read rb n h
  obtain ⟨g1, g2, g3, g4⟩ := hI'
  rw [u_rb_read_sz] at g1 g3
  exact ⟨hc.2.1, hc.2.2, hc.1, hrr, by omega, by omega⟩

/-- Witness for C3: one byte buffered at offset 0 of a 4096-byte buffer,
read request of one byte. -/
theorem C3_read_normalization_witness :
    ((⟨4096, 1, 0, fun _ => 7⟩ : u_rb_s).sz ≤
        (⟨4096, 1, 0, fun _ => 7⟩ : u_rb_s).rd_off +
          min (u_rb_ready ⟨4096, 1, 0, fun _ => 7⟩) 1 →
      (u_rb_read ⟨4096, 1, 0, fun _ => 7⟩ 1).1.rd_off =
        (⟨4096, 1, 0, fun _ => 7⟩ : u_rb_s).rd_off +
          min (u_rb_ready ⟨4096, 1, 0, fun _ => 7⟩) 1 -
          (⟨4096, 1, 0, fun _ => 7⟩ : u_rb_s).sz ∧
      (u_rb_read ⟨4096, 1, 0, fun _ => 7⟩ 1).1.wr_off =
        (⟨4096, 1, 0, fun _ => 7⟩ : u_rb_s).wr_off -
          (⟨4096, 1, 0, fun _ => 7⟩ : u_rb_s).sz) ∧
    ((⟨4096, 1, 0, fun _ => 7⟩ : u_rb_s).rd_off +
        min (u_rb_ready ⟨4096, 1, 0, fun _ => 7⟩) 1 <
        (⟨4096, 1, 0, fun _ => 7⟩ : u_rb_s).sz →
      (u_rb_read ⟨4096, 1, 0, fun _ => 7⟩ 1).1.rd_off =
        (⟨4096, 1, 0, fun _ => 7⟩ : u_rb_s).rd_off +
          min (u_rb_ready ⟨4096, 1, 0, fun _ => 7⟩) 1 ∧
      (u_rb_read ⟨4096, 1, 0, fun _ => 7⟩ 1).1.wr_off =
        (⟨4096, 1, 0, fun _ => 7⟩ : u_rb_s).wr_off) ∧
    (u_rb_read ⟨4096, 1, 0, fun _ => 7⟩ 1).2.1 =
      Int.ofNat (min (u_rb_ready ⟨4096, 1, 0, fun _ => 7⟩) 1) ∧
    u_rb_ready (u_rb_read ⟨4096, 1, 0, fun _ => 7⟩ 1).1 =
      u_rb_ready ⟨4096, 1, 0, fun _ => 7⟩ -
        min (u_rb_ready ⟨4096, 1, 0, fun _ => 7⟩) 1 ∧
    (u_rb_read ⟨4096, 1, 0, fun _ => 7⟩ 1).1.rd_off <
      2 * (⟨4096, 1, 0, fun _ => 7⟩ : u_rb_s).sz ∧
    (u_rb_read ⟨4096, 1, 0, fun _ => 7⟩ 1).1.wr_off <
      2 * (⟨4096, 1, 0, fun _ => 7⟩ : u_rb_s).sz :=
  C3_read_normalization ⟨4096, 1, 0, fun _ => 7⟩ 1 (by decide) (by decide) (by decide)

/-- C4: `Ready(rb) + Avail(rb) = Size(rb)` in every reachable state, and for
any error-free trace of Write/Read calls starting from a buffer with both
offsets zero, the final ready count plus the total bytes read equals the
total bytes written. -/
theorem C4_conservation :
    (∀ rb : u_rb_s, Reach rb → u_rb_ready rb + u_rb_avail rb = u_rb_size rb) ∧
    (∀ (rb : u_rb_s) (ops : List RbOp), RbInv rb → rb.wr_off = 0 → rb.rd_off = 0 →
      (∀ op ∈ ops, opSz op ≤ rb.sz) →
      u_rb_ready (runOps rb ops).1 + (runOps rb ops).2.2 = (runOps rb ops).2.1) := by
  constructor
  · intro rb h
    have hI := reach_inv rb h
    have hr := ready_eq rb hI
    have ha := avail_eq rb hI
    obtain ⟨g1, g2, g3, g4⟩ := hI
    unfold u_rb_size
    omega
  · intro rb ops h hw hr hops
    have hacc := runOps_account ops rb h hops
    have hr0 : u_rb_ready rb = 0 := by
      rw [ready_eq rb h, hw, hr]
    omega

/-- Witness for C4: the reachable part at a fresh buffer, and the trace
part on a fresh buffer running a 2-byte write followed by a 1-byte read. -/
theorem C4_conservation_witness :
    (u_rb_ready (u_rb_create 4096 0) + u_rb_avail (u_rb_create 4096 0) =
      u_rb_size (u_rb_create 4096 0)) ∧
    (u_rb_ready (runOps (u_rb_create 4096 0) [RbOp.wrOp [1, 2] 2, RbOp.rdOp 1]).1 +
        (runOps (u_rb_create 4096 0) [RbOp.wrOp [1, 2] 2, RbOp.rdOp 1]).2.2 =
      (runOps (u_rb_create 4096 0) [RbOp.wrOp [1, 2] 2, RbOp.rdOp 1]).2.1) :=
  ⟨C4_conservation.1 (u_rb_create 4096 0) (Reach.create 4096 0 (by decide) (by decide)),
   C4_conservation.2 (u_rb_create 4096 0) [RbOp.wrOp [1, 2] 2, RbOp.rdOp 1]
     (by decide) rfl rfl (by decide)⟩

/-- Counterexample to C1 as stated: in a state with one byte (value 7)
already buffered, writing `[9]` and then reading one byte returns the
older byte 7, not 9, even though `Avail` is ample. -/
theorem C1_roundtrip_counterexample :
    RbInv ⟨4096, 1, 0, fun _ => 7⟩ ∧
    ([9] : List Nat).length ≤ u_rb_size ⟨4096, 1, 0, fun _ => 7⟩ ∧
    ([9] : List Nat).length ≤ u_rb_avail ⟨4096, 1, 0, fun _ => 7⟩ ∧
    (u_rb_read (u_rb_write ⟨4096, 1, 0, fun _ => 7⟩ [9] ([9] : List Nat).length).1
        ([9] : List Nat).length).2.2 ≠ [9] := by
  decide

/-- C1 (amended: the buffer must hold no unread data, `Ready(rb) = 0`, so
that the bytes came back are the ones just written): writing `S` with
`len(S) <= Size(rb)` into an empty buffer and then reading `len(S)` bytes
accepts all of `S`, reads back `len(S)` bytes, and those bytes are exactly
`S` — for any offsets satisfying the invariant, hence also when `S`
straddles the `sz` boundary. -/
theorem C1_roundtrip (rb : u_rb_s) (S : List Nat) (h : RbInv rb)
    (hempty : u_rb_ready rb = 0) (hlen : S.length ≤ u_rb_size rb) :
    (u_rb_write rb S S.length).2 = Int.ofNat S.length ∧
    (u_rb_read (u_rb_write rb S S.length).1 S.length).2.1 = Int.ofNat S.length ∧
    (u_rb_read (u_rb_write rb S S.length).1 S.length).2.2 = S := by
  have hI : RbInv rb := h
  have hr := ready_eq rb h
  have ha := avail_eq rb h
  obtain ⟨h1, h2, h3, h4⟩ := h
  have hlen' : S.length ≤ rb.sz := hlen
  have hwr : rb.wr_off = rb.rd_off := by omega
  have hav : u_rb_avail rb = rb.sz := by omega
  by_cases hS : S.length = 0
  · have hSnil : S = [] := List.eq_nil_of_length_eq_zero hS
    subst hSnil
    have hw0 : u_rb_write rb [] (List.length ([] : List Nat)) = (rb, 0) := by
      unfold u_rb_write
      rw [if_neg (by simp), if_pos (by simp)]
    have hrd0 : u_rb_read rb (List.length ([] : List Nat)) = (rb, 0, []) :=
      u_rb_read_empty rb _ hempty (Nat.zero_le _)
    rw [hw0]
    refine ⟨rfl, ?_, ?_⟩
    · show (u_rb_read rb (List.length ([] : List Nat))).2.1 =
        Int.ofNat (List.length ([] : List Nat))
      rw [hrd0]
      rfl
    · show (u_rb_read rb (List.length ([] : List Nat))).2.2 = ([] : List Nat)
      rw [hrd0]
  · have hkmin : min (u_rb_avail rb) S.length = S.length := by
      rw [hav]
      exact Nat.min_eq_right hlen'
    have hcond : ¬ (S.length > u_rb_size rb) := Nat.not_lt.mpr hlen
    have hkne : ¬ (min (u_rb_avail rb) S.length = 0) := by
      rw [hkmin]
      exact hS
    have hch := u_rb_write_char rb S S.length hI hlen'
    have hret : (u_rb_write rb S S.length).2 = Int.ofNat S.length := by
      rw [hch.2, hkmin]
    have hsz1 : (u_rb_write rb S S.length).1.sz = rb.sz := u_rb_write_sz rb S S.length
    have hrd1 : (u_rb_write rb S S.length).1.rd_off = rb.rd_off := u_rb_write_rd rb S S.length
    have hmem1 : (u_rb_write rb S S.length).1.mem = memcpyIn rb.sz rb.wr_off S rb.mem := by
      rw [u_rb_write_mem rb S S.length hcond hkne, hkmin, List.take_length]
    have hready1 : u_rb_ready (u_rb_write rb S S.length).1 = S.length := by
      rw [u_rb_write_ready rb S S.length hI hlen', hempty, hkmin]
      omega
    have hcond2 : ¬ (S.length > u_rb_size (u_rb_write rb S S.length).1) := by
      unfold u_rb_size
      rw [hsz1]
      omega
    have hkmin2 : min (u_rb_ready (u_rb_write rb S S.length).1) S.length = S.length := by
      rw [hready1]
      exact Nat.min_self _
    have hkne2 : ¬ (min (u_rb_ready (u_rb_write rb S S.length).1) S.length = 0) := by
      rw [hkmin2]
      exact hS
    have hbytes := u_rb_read_bytes (u_rb_write rb S S.length).1 S.length hcond2 hkne2
    have hretr := (u_rb_read_char (u_rb_write rb S S.length).1 S.length
      (rbInv_write rb S S.length hI) (by rw [hsz1]; exact hlen')).1
    refine ⟨hret, ?_, ?_⟩
    · rw [hretr, hkmin2]
    · rw [hbytes, hkmin2, hsz1, hrd1, hmem1, hwr]
      exact memRead_memcpyIn rb.sz (by omega) rb.rd_off S rb.mem hlen'

/-- Witness for C1 (amended): a 4096-byte buffer with both offsets at 4095
(empty, about to straddle the boundary), round-tripping the three bytes
`[5, 6, 7]`. -/
theorem C1_roundtrip_witness :
    RbInv ⟨4096, 4095, 4095, fun _ => 0⟩ ∧
    u_rb_ready ⟨4096, 4095, 4095, fun _ => 0⟩ = 0 ∧
    ([5, 6, 7] : List Nat).length ≤ u_rb_size ⟨4096, 4095, 4095, fun _ => 0⟩ ∧
    ((u_rb_write ⟨4096, 4095, 4095, fun _ => 0⟩ [5, 6, 7]
        ([5, 6, 7] : List Nat).length).2 = Int.ofNat ([5, 6, 7] : List Nat).length ∧
      (u_rb_read (u_rb_write ⟨4096, 4095, 4095, fun _ => 0⟩ [5, 6, 7]
          ([5, 6, 7] : List Nat).length).1
        ([5, 6, 7] : List Nat).length).2.1 = Int.ofNat ([5, 6, 7] : List Nat).length ∧
      (u_rb_read (u_rb_write ⟨4096, 4095, 4095, fun _ => 0⟩ [5, 6, 7]
          ([5, 6, 7] : List Nat).length).1
        ([5, 6, 7] : List Nat).length).2.2 = [5, 6, 7]) :=
  ⟨by decide, by decide, by decide,
   C1_roundtrip ⟨4096, 4095, 4095, fun _ => 0⟩ [5, 6, 7] (by decide) (by decide) (by decide)⟩

/-- C5: Write and Read return -1 exactly when the requested size exceeds
`Size(rb)` or the buffer / data reference is NULL; on every such failure
the returned buffer state is the unchanged input, and with valid arguments
and `n <= Size(rb)` the result is always nonnegative. -/
theorem C5_error_handling (rb : u_rb_s) (bs : List Nat) (ob : Option (List Nat))
    (ou : Option Unit) (n : Nat) :
    ((u_rb_write_ptr (some rb) (some bs) n).2 = -1 ↔ u_rb_size rb < n) ∧
    (u_rb_write_ptr (some rb) none n = (some rb, -1)) ∧
    (u_rb_write_ptr none ob n = (none, -1)) ∧
    (u_rb_size rb < n → u_rb_write_ptr (some rb) (some bs) n = (some rb, -1)) ∧
    (n ≤ u_rb_size rb → 0 ≤ (u_rb_write_ptr (some rb) (some bs) n).2) ∧
    ((u_rb_read_ptr (some rb) (some ()) n).2.1 = -1 ↔ u_rb_size rb < n) ∧
    (u_rb_read_ptr (some rb) none n = (some rb, -1, [])) ∧
    (u_rb_read_ptr none ou n = (none, -1, [])) ∧
    (u_rb_size rb < n → u_rb_read_ptr (some rb) (some ()) n = (some rb, -1, [])) ∧
    (n ≤ u_rb_size rb → 0 ≤ (u_rb_read_ptr (some rb) (some ()) n).2.1) := by
  have hw2 : (u_rb_write_ptr (some rb) (some bs) n).2 = (u_rb_write rb bs n).2 := rfl
  have hr2 : (u_rb_read_ptr (some rb) (some ()) n).2.1 = (u_rb_read rb n).2.1 := rfl
  refine ⟨?_, rfl, rfl, ?_, ?_, ?_, rfl, ?_, ?_, ?_⟩
  · rw [hw2]
    constructor
    · intro habs
      by_contra hlt
      have hge := u_rb_write_nonneg rb bs n hlt
      omega
    · intro hlt
      rw [u_rb_write_err rb bs n hlt]
  · intro hlt
    show (some (u_rb_write rb bs n).1, (u_rb_write rb bs n).2) = (some rb, -1)
    rw [u_rb_write_err rb bs n hlt]
  · intro hle
    rw [hw2]
    exact u_rb_write_nonneg rb bs n (by omega)
  · rw [hr2]
    constructor
    · intro habs
      by_contra hlt
      have hge := u_rb_read_nonneg rb n hlt
      omega
    · intro hlt
      rw [u_rb_read_err rb n hlt]
  · cases ou with
    | none => rfl
    | some u => rfl
  · intro hlt
    show (some (u_rb_read rb n).1, (u_rb_read rb n).2.1, (u_rb_read rb n).2.2) =
      (some rb, -1, [])
    rw [u_rb_read_err rb n hlt]
  · intro hle
    rw [hr2]
    exact u_rb_read_nonneg rb n (by omega)

/-- Witness for C5 on a fresh 4096-byte buffer: oversized requests are
rejected with the state unchanged, in-range requests return nonnegative. -/
theorem C5_error_handling_witness :
    u_rb_write_ptr (some (u_rb_create 4096 0)) (some [1]) 5000 =
      (some (u_rb_create 4096 0), -1) ∧
    (0 : Int) ≤ (u_rb_write_ptr (some (u_rb_create 4096 0)) (some [1]) 100).2 ∧
    u_rb_read_ptr (some (u_rb_create 4096 0)) (some ()) 5000 =
      (some (u_rb_create 4096 0), -1, []) ∧
    (0 : Int) ≤ (u_rb_read_ptr (some (u_rb_create 4096 0)) (some ()) 100).2.1 :=
  ⟨(C5_error_handling (u_rb_create 4096 0) [1] none none 5000).2.2.2.1 (by decide),
   (C5_error_handling (u_rb_create 4096 0) [1] none none 100).2.2.2.2.1 (by decide),
   (C5_error_handling (u_rb_create 4096 0) [1] none none 5000).2.2.2.2.2.2.2.2.1 (by decide),
   (C5_error_handling (u_rb_create 4096 0) [1] none none 100).2.2.2.2.2.2.2.2.2 (by decide)⟩

/-- Counterexample to C6 as stated: on a full 4096-byte buffer, a Write of
`n = 4097 > 0` bytes returns -1 (the oversize guard fires), not 0. -/
theorem C6_backpressure_counterexample :
    RbInv ⟨4096, 4096, 0, fun _ => 0⟩ ∧
    u_rb_avail ⟨4096, 4096, 0, fun _ => 0⟩ = 0 ∧
    (0 : Nat) < 4097 ∧
    (u_rb_write ⟨4096, 4096, 0, fun _ => 0⟩ [] 4097).2 ≠ 0 := by
  decide

/-- C6 (amended: restricted to requests within the size guard,
`0 < n <= Size(rb)`): on a full buffer, Write returns 0 and leaves the
state — offsets and contents — entirely unchanged. -/
theorem C6_backpressure (rb : u_rb_s) (b : List Nat) (n : Nat) (h : RbInv rb)
    (hfull : u_rb_avail rb = 0) (hn0 : 0 < n) (hn : n ≤ u_rb_size rb) :
    u_rb_write rb b n = (rb, 0) := by
  unfold u_rb_write
  rw [if_neg (Nat.not_lt.mpr hn), if_pos (by rw [hfull]; exact Nat.zero_min n)]

/-- Witness for C6 (amended) on a full 4096-byte buffer with a 1-byte
write request. -/
theorem C6_backpressure_witness :
    RbInv ⟨4096, 4096, 0, fun _ => 0⟩ ∧
    u_rb_avail ⟨4096, 4096, 0, fun _ => 0⟩ = 0 ∧
    (0 : Nat) < 1 ∧
    u_rb_write ⟨4096, 4096, 0, fun _ => 0⟩ [1] 1 = (⟨4096, 4096, 0, fun _ => 0⟩, 0) :=
  ⟨by decide, by decide, by decide,
   C6_backpressure ⟨4096, 4096, 0, fun _ => 0⟩ [1] 1 (by decide) (by decide)
     (by decide) (by decide)⟩

/-- Counterexample to C7 as stated: on a freshly created buffer, a Read of
`n = 4097 > 0` bytes returns -1 (the oversize guard fires), not 0. -/
theorem C7_starvation_counterexample :
    (0 : Nat) < 4097 ∧ (u_rb_read (u_rb_create 4096 0) 4097).2.1 ≠ 0 := by
  decide

/-- C7 (amended: restricted to requests within the size guard,
`0 < n <= Size(rb)`): Read returns 0 on a freshly created buffer and on a
freshly cleared buffer. -/
theorem C7_empty_read (pg hint : Nat) (rb : u_rb_s) (n : Nat) :
    (0 < n → n ≤ u_rb_size (u_rb_create pg hint) →
      (u_rb_read (u_rb_create pg hint) n).2.1 = 0) ∧
    (0 < n → n ≤ u_rb_size rb → (u_rb_read (u_rb_clear rb) n).2.1 = 0) := by
  constructor
  · intro _ hn
    rw [u_rb_read_empty (u_rb_create pg hint) n (u_rb_ready_create pg hint) hn]
  · intro _ hn
    rw [u_rb_read_empty (u_rb_clear rb) n (u_rb_ready_clear rb) hn]

/-- Witness for C7 (amended): fresh buffer, and an arbitrary dirty buffer
after Clear, each refusing a 1-byte read with result 0. -/
theorem C7_empty_read_witness :
    (u_rb_read (u_rb_create 4096 0) 1).2.1 = 0 ∧
    (u_rb_read (u_rb_clear ⟨4096, 9, 3, fun _ => 5⟩) 1).2.1 = 0 :=
  ⟨(C7_empty_read 4096 0 ⟨4096, 9, 3, fun _ => 5⟩ 1).1 (by decide) (by decide),
   (C7_empty_read 4096 0 ⟨4096, 9, 3, fun _ => 5⟩ 1).2 (by decide) (by decide)⟩

/-- C8: for page size `pg > 0` and any hint `hint` whose rounding does not
overflow `size_t` (`hint + pg < 2^64`, which holds whenever the creation
can succeed), `round_sz pg hint` is positive, a multiple of `pg`, at least
`hint`, the least such multiple, and equals exactly `pg` when `hint = 0`. -/
theorem C8_capacity_rounding (pg hint : Nat) (hpg : 0 < pg)
    (hno : hint + pg < SZMOD) :
    0 < round_sz pg hint ∧ pg ∣ round_sz pg hint ∧ hint ≤ round_sz pg hint ∧
    (∀ m, 0 < m → pg ∣ m → hint ≤ m → round_sz pg hint ≤ m) ∧
    (hint = 0 → round_sz pg hint = pg) := by
  unfold round_sz
  by_cases h0 : hint = 0
  · rw [if_pos h0]
    have hlt : pg % SZMOD = pg := Nat.mod_eq_of_lt (by omega)
    rw [hlt]
    refine ⟨hpg, dvd_refl pg, by omega, ?_, fun _ => rfl⟩
    intro m hm hdvd _
    exact Nat.le_of_dvd hm hdvd
  · rw [if_neg h0]
    have hq := Nat.div_add_mod (hint - 1) pg
    have hrlt := Nat.mod_lt (hint - 1) hpg
    have hexp : ((hint - 1) / pg + 1) * pg = pg * ((hint - 1) / pg) + pg := by
      ring
    have hble : ((hint - 1) / pg + 1) * pg < SZMOD := by
      rw [hexp]
      omega
    rw [Nat.mod_eq_of_lt hble]
    refine ⟨Nat.mul_pos (Nat.succ_pos _) hpg, ⟨(hint - 1) / pg + 1, by ring⟩,
      by rw [hexp]; omega, ?_, fun hc => absurd hc h0⟩
    intro m hm hdvd hge
    obtain ⟨t, ht⟩ := hdvd
    have ht0 : 0 < t := by
      rcases Nat.eq_zero_or_pos t with h | h
      · subst h
        rw [Nat.mul_zero] at ht
        omega
      · exact h
    have hlt2 : (hint - 1) / pg < t := by
      rw [Nat.div_lt_iff_lt_mul hpg]
      have hhm : hint - 1 < m := by omega
      rw [ht, Nat.mul_comm pg t] at hhm
      exact hhm
    rw [ht, Nat.mul_comm pg t]
    exact Nat.mul_le_mul_right pg hlt2

/-- Witness for C8 at page size 4096, hint 5000 (rounds to 8192). -/
theorem C8_capacity_rounding_witness :
    0 < round_sz 4096 5000 ∧ 4096 ∣ round_sz 4096 5000 ∧ 5000 ≤ round_sz 4096 5000 ∧
    (∀ m, 0 < m → 4096 ∣ m → 5000 ≤ m → round_sz 4096 5000 ≤ m) ∧
    (5000 = 0 → round_sz 4096 5000 = 4096) :=
  C8_capacity_rounding 4096 5000 (by decide) (by decide)

/-- C10: zero-length Write and Read on a live buffer with a non-NULL data
pointer return 0 and leave the buffer (offsets and contents) unchanged, in
every state. -/
theorem C10_zero_transfer (rb : u_rb_s) (bs : List Nat) :
    u_rb_write_ptr (some rb) (some bs) 0 = (some rb, 0) ∧
    u_rb_read_ptr (some rb) (some ()) 0 = (some rb, 0, []) := by
  constructor
  · show (some (u_rb_write rb bs 0).1, (u_rb_write rb bs 0).2) = (some rb, 0)
    have hw : u_rb_write rb bs 0 = (rb, 0) := by
      unfold u_rb_write
      rw [if_neg (Nat.not_lt_zero _), if_pos (Nat.min_zero _)]
    rw [hw]
  · show (some (u_rb_read rb 0).1, (u_rb_read rb 0).2.1, (u_rb_read rb 0).2.2) =
      (some rb, 0, [])
    have hrd : u_rb_read rb 0 = (rb, 0, []) := by
      unfold u_rb_read
      rw [if_neg (Nat.not_lt_zero _), if_pos (Nat.min_zero _)]
    rw [hrd]
